import Mathlib

/-!
Verification development for the `klog` log viewer.

The program streams Kubernetes pod logs and renders each line with
severity-based coloring, optional timestamp normalization, keyword
highlighting/filtering, per-pod color prefixes, and a bounded-concurrency
fan-out over matched pods.

Strings are embedded as `List Char` (the program works on ASCII log text;
Go operates on bytes, which coincides with chars on the ASCII inputs the
rule tables target).  Colored terminal text is embedded as plain text with
explicit ANSI escape sequences, mirroring how `pterm` color functions wrap
a string in an escape code and a reset code.
-/

/-- The colors used by the program: the four text colors chosen by the
classifier (`pterm.Red`, `pterm.Yellow`, `pterm.Cyan`, `pterm.White`), the
dim timestamp color, the highlight background, and the ten-entry pod-name
palette from `main.go`. -/
inductive Color where
  | red
  | yellow
  | cyan
  | white
  | darkGray
  | bgMagenta
  | fgRed
  | fgGreen
  | fgYellow
  | fgBlue
  | fgMagenta
  | fgCyan
  | fgLightYellow
  | fgLightBlue
  | fgLightMagenta
  | fgLightCyan
deriving DecidableEq

/-- ANSI escape sequence opening a color, as `pterm` emits it. -/
def colorSeq : Color → List Char
  | Color.red => "\x1b[31m".toList
  | Color.yellow => "\x1b[33m".toList
  | Color.cyan => "\x1b[36m".toList
  | Color.white => "\x1b[37m".toList
  | Color.darkGray => "\x1b[90m".toList
  | Color.bgMagenta => "\x1b[45m".toList
  | Color.fgRed => "\x1b[31m".toList
  | Color.fgGreen => "\x1b[32m".toList
  | Color.fgYellow => "\x1b[33m".toList
  | Color.fgBlue => "\x1b[34m".toList
  | Color.fgMagenta => "\x1b[35m".toList
  | Color.fgCyan => "\x1b[36m".toList
  | Color.fgLightYellow => "\x1b[93m".toList
  | Color.fgLightBlue => "\x1b[94m".toList
  | Color.fgLightMagenta => "\x1b[95m".toList
  | Color.fgLightCyan => "\x1b[96m".toList

/-- ANSI reset sequence closing a colored span. -/
def resetSeq : List Char := "\x1b[0m".toList

/-- `pterm` style `Sprint`: wrap a string in the color's escape sequence
and a reset. -/
def sprint (c : Color) (s : List Char) : List Char :=
  colorSeq c ++ s ++ resetSeq

/-! ## Regular-expression machinery

The rule tables in `main.go` use only three regex constructs: literal
characters, `\d` (an ASCII digit under RE2), and the word-boundary
assertion `\b` (ASCII `[0-9A-Za-z_]` under RE2).  Each table entry is
translated into a sequence of such items; `regexp.MatchString` is
"some match exists at some position". -/

/-- One atom of the patterns appearing in the rule tables. -/
inductive RItem where
  | lit : Char → RItem
  | dig : RItem
  | wb : RItem
deriving DecidableEq

/-- RE2 word character for `\b`: ASCII `[0-9A-Za-z_]`. -/
def isWordChar (c : Char) : Bool :=
  c.isAlpha || c.isDigit || c == '_'

/-- Whether position `i` of `line` holds a word character (out of range
counts as non-word, as at the ends of the subject string). -/
def wordAt (line : List Char) (i : Nat) : Bool :=
  match line.get? i with
  | some c => isWordChar c
  | none => false

/-- RE2 `\b`: a word boundary sits between positions `i-1` and `i` exactly
when one side is a word character and the other is not. -/
def atBoundary (line : List Char) (i : Nat) : Bool :=
  Bool.xor (decide (i ≠ 0) && wordAt line (i - 1)) (wordAt line i)

/-- Match a pattern starting at position `i` of `line`. -/
def matchItems (line : List Char) : Nat → List RItem → Bool
  | _, [] => true
  | i, RItem.lit c :: rest =>
      (match line.get? i with
       | some d => c == d
       | none => false) && matchItems line (i + 1) rest
  | i, RItem.dig :: rest =>
      (match line.get? i with
       | some d => d.isDigit
       | none => false) && matchItems line (i + 1) rest
  | i, RItem.wb :: rest => atBoundary line i && matchItems line i rest

/-- `regexp.MatchString`: the pattern matches somewhere in `line`. -/
def matchesAnywhere (line : List Char) (pat : List RItem) : Bool :=
  (List.range (line.length + 1)).any (fun i => matchItems line i pat)

/-- A run of literal characters. -/
def litPat (s : List Char) : List RItem :=
  s.map RItem.lit

/-- `errorRegexps` from `main.go`. -/
def errorRegexps : List (List RItem) :=
  [ RItem.wb :: litPat ("level=error".toList) ++ [RItem.wb],
    RItem.wb :: litPat ("level=err".toList) ++ [RItem.wb],
    RItem.wb :: litPat ("levelerror".toList) ++ [RItem.wb],
    RItem.wb :: litPat ("err=".toList) ++ [RItem.wb],
    litPat ("[error]".toList),
    litPat ("[ERROR]".toList),
    litPat ("[err]".toList),
    litPat ("[ERR]".toList),
    litPat (" ERRO: ".toList),
    litPat (" Err: ".toList),
    RItem.wb :: litPat ("ERR".toList) ++ [RItem.wb],
    RItem.wb :: litPat ("ERROR".toList) ++ [RItem.wb],
    RItem.wb :: litPat ("CRIT".toList) ++ [RItem.wb],
    RItem.wb :: litPat ("E0".toList) ++ [RItem.dig, RItem.dig, RItem.dig, RItem.wb] ]

/-- `warningRegexps` from `main.go`. -/
def warningRegexps : List (List RItem) :=
  [ RItem.wb :: litPat ("level=warning".toList) ++ [RItem.wb],
    RItem.wb :: litPat ("level=warn".toList) ++ [RItem.wb],
    RItem.wb :: litPat ("levelwarn".toList) ++ [RItem.wb],
    RItem.wb :: litPat ("warn=".toList) ++ [RItem.wb],
    litPat ("[warning]".toList),
    litPat ("[WARNING]".toList),
    litPat ("[warn]".toList),
    litPat ("[WARN]".toList),
    litPat (" WARN: ".toList),
    RItem.wb :: litPat ("WARN".toList) ++ [RItem.wb],
    RItem.wb :: litPat ("WARNING".toList) ++ [RItem.wb],
    RItem.wb :: litPat ("W0".toList) ++ [RItem.dig, RItem.dig, RItem.dig, RItem.wb] ]

/-- `panicRegexps` from `main.go`. -/
def panicRegexps : List (List RItem) :=
  [ RItem.wb :: litPat ("level=panic".toList) ++ [RItem.wb],
    RItem.wb :: litPat ("levelpanic".toList) ++ [RItem.wb],
    litPat ("[panic]".toList),
    litPat ("[PANIC]".toList),
    litPat (" panic:".toList),
    RItem.wb :: litPat ("PANIC".toList) ++ [RItem.wb] ]

/-- `debugRegexps` from `main.go`. -/
def debugRegexps : List (List RItem) :=
  [ RItem.wb :: litPat ("level=debug".toList) ++ [RItem.wb],
    RItem.wb :: litPat ("leveldebug".toList) ++ [RItem.wb],
    litPat ("[debug]".toList),
    litPat ("[DEBUG]".toList),
    litPat (" debug:".toList),
    RItem.wb :: litPat ("DEBUG".toList) ++ [RItem.wb] ]

/-- `IsError` from `funcRegex.go`: some error rule matches the line. -/
def IsError (line : List Char) : Bool :=
  errorRegexps.any (matchesAnywhere line)

/-- `IsWarning` from `funcRegex.go`. -/
def IsWarning (line : List Char) : Bool :=
  warningRegexps.any (matchesAnywhere line)

/-- `IsPanic` from `funcRegex.go`. -/
def IsPanic (line : List Char) : Bool :=
  panicRegexps.any (matchesAnywhere line)

/-- `IsDebug` from `funcRegex.go`. -/
def IsDebug (line : List Char) : Bool :=
  debugRegexps.any (matchesAnywhere line)

/-- The plain-text `switch` at the top of `PrintLogLine`: first matching
group, in source order, picks the color. -/
def plainColor (line : List Char) : Color :=
  if IsError line then Color.red
  else if IsWarning line then Color.yellow
  else if IsPanic line then Color.yellow
  else if IsDebug line then Color.cyan
  else Color.white

example : IsError ("x [ERROR] y".toList) = true := by decide
example : IsError ("ERRONEOUS".toList) = false := by decide
example : plainColor ("all fine here".toList) = Color.white := by decide
example : plainColor ("[ERROR] [WARN]".toList) = Color.red := by decide

/-! ## String helpers -/

/-- Index of the first occurrence of `kw` in `s` (`strings.Index`);
`some 0` for an empty `kw`. -/
def firstOcc (kw : List Char) : List Char → Option Nat
  | [] => if kw.isPrefixOf [] then some 0 else none
  | c :: t =>
      if kw.isPrefixOf (c :: t) then some 0
      else (firstOcc kw t).map (· + 1)

/-- `strings.Contains`. -/
def containsSub (s sub : List Char) : Bool :=
  (firstOcc sub s).isSome

/-- `ContainsAny` from the rendering file: true when any of the given
substrings occurs in `line`. -/
def ContainsAny (line : List Char) (substrings : List (List Char)) : Bool :=
  substrings.any (fun s => containsSub line s)

/-- `strings.ToLower` (ASCII case mapping; the JSON level tokens the
program compares against are all ASCII). -/
def toLowerL (s : List Char) : List Char :=
  s.map Char.toLower

/-- `strings.Split` on a one-character separator. -/
def splitOnChar (sep : Char) : List Char → List (List Char)
  | [] => [[]]
  | c :: t =>
      let r := splitOnChar sep t
      if c == sep then [] :: r
      else
        match r with
        | [] => [[c]]
        | h :: t2 => (c :: h) :: t2

/-- The `strings.SplitN(line, " ", 2)` step of `PrintLogLine`: when the
line contains a space, the part before the first space becomes the
timestamp and the part after it becomes the new line; otherwise
`SplitN` returns a single part and nothing changes. -/
def splitTimestamp (line : List Char) : List Char × List Char :=
  match firstOcc ([' ']) line with
  | some i => (line.take i, line.drop (i + 1))
  | none => ([], line)

example : splitTimestamp ("ab cd ef".toList) = ("ab".toList, "cd ef".toList) := by decide
example : splitTimestamp ("hello".toList) = ([], "hello".toList) := by decide
example : splitOnChar '|' ("error|critical|fatal".toList) =
    [ "error".toList, "critical".toList, "fatal".toList ] := by decide

/-! ## JSON decoding (`encoding/json.Unmarshal` into `map[string]interface{}`)

`PrintLogLine` attempts to decode the whole line as a JSON value; into a
`map[string]interface{}` this succeeds exactly when the line is one JSON
object (surrounded by optional whitespace).  Only the `level` field is
ever consulted, and only when its value is a JSON string, so numbers are
kept as their raw text.  Object fields are kept in input order; lookup
takes the last binding of a key, matching Go's map overwrite on duplicate
keys.  (Unicode notes: a single `\uXXXX` escape is decoded to that code
point; surrogate-pair recombination is not modelled, which no theorem
below depends on.) -/

inductive Json where
  | null : Json
  | bool : Bool → Json
  | num : List Char → Json
  | str : List Char → Json
  | arr : List Json → Json
  | obj : List (List Char × Json) → Json

/-- JSON whitespace. -/
def jWs (c : Char) : Bool :=
  c == ' ' || c == '\t' || c == '\n' || c == '\r'

def skipWs : List Char → List Char
  | [] => []
  | c :: t => if jWs c then skipWs t else c :: t

def hexVal (c : Char) : Option Nat :=
  if '0' ≤ c ∧ c ≤ '9' then some (c.toNat - '0'.toNat)
  else if 'a' ≤ c ∧ c ≤ 'f' then some (c.toNat - 'a'.toNat + 10)
  else if 'A' ≤ c ∧ c ≤ 'F' then some (c.toNat - 'A'.toNat + 10)
  else none

/-- Parse the body of a JSON string after the opening quote; returns the
decoded content and the rest after the closing quote. -/
def parseStringBody : Nat → List Char → Option (List Char × List Char)
  | 0, _ => none
  | _ + 1, [] => none
  | fuel + 1, c :: t =>
      if c == '"' then some ([], t)
      else if c == '\\' then
        match t with
        | [] => none
        | e :: t1 =>
            let cont := fun (ch : Char) (rest : List Char) =>
              (parseStringBody fuel rest).map (fun p => (ch :: p.1, p.2))
            if e == '"' then cont '"' t1
            else if e == '\\' then cont '\\' t1
            else if e == '/' then cont '/' t1
            else if e == 'b' then cont (Char.ofNat 8) t1
            else if e == 'f' then cont (Char.ofNat 12) t1
            else if e == 'n' then cont '\n' t1
            else if e == 'r' then cont '\r' t1
            else if e == 't' then cont '\t' t1
            else if e == 'u' then
              match t1 with
              | h1 :: h2 :: h3 :: h4 :: t2 =>
                  match hexVal h1, hexVal h2, hexVal h3, hexVal h4 with
                  | some a, some b, some c2, some d =>
                      cont (Char.ofNat (((a * 16 + b) * 16 + c2) * 16 + d)) t2
                  | _, _, _, _ => none
              | _ => none
            else none
      else if c.toNat < 32 then none
      else (parseStringBody fuel t).map (fun p => (c :: p.1, p.2))

/-- Parse a JSON number token, returning its raw text and the rest. -/
def parseNumber (s : List Char) : Option (List Char × List Char) :=
  let (sign, s1) :=
    match s with
    | '-' :: t => (['-'], t)
    | _ => ([], s)
  match s1 with
  | [] => none
  | c :: _ =>
      if c.isDigit then
        let intPart :=
          if c == '0' then ['0']
          else s1.takeWhile Char.isDigit
        let s2 := s1.drop intPart.length
        let (frac, s3) :=
          match s2 with
          | '.' :: t =>
              let ds := t.takeWhile Char.isDigit
              if ds.length == 0 then (([] : List Char), s2)
              else ('.' :: ds, t.drop ds.length)
          | _ => ([], s2)
        let (expo, s4) :=
          match s3 with
          | e :: t =>
              if e == 'e' || e == 'E' then
                let (es, t1) :=
                  match t with
                  | '+' :: t2 => (['+'], t2)
                  | '-' :: t2 => (['-'], t2)
                  | _ => (([] : List Char), t)
                let ds := t1.takeWhile Char.isDigit
                if ds.length == 0 then (([] : List Char), s3)
                else (e :: (es ++ ds), t1.drop ds.length)
              else ([], s3)
          | _ => ([], s3)
        some (sign ++ intPart ++ frac ++ expo, s4)
      else none

mutual

def parseValue : Nat → List Char → Option (Json × List Char)
  | 0, _ => none
  | fuel + 1, s =>
      match skipWs s with
      | [] => none
      | c :: t =>
          if c == '"' then
            (parseStringBody (t.length + 1) t).map (fun p => (Json.str p.1, p.2))
          else if c == 't' then
            if ("rue".toList).isPrefixOf t then some (Json.bool true, t.drop 3) else none
          else if c == 'f' then
            if ("alse".toList).isPrefixOf t then some (Json.bool false, t.drop 4) else none
          else if c == 'n' then
            if ("ull".toList).isPrefixOf t then some (Json.null, t.drop 3) else none
          else if c == '{' then
            match skipWs t with
            | '}' :: r => some (Json.obj [], r)
            | _ => parseMembers fuel t []
          else if c == '[' then
            match skipWs t with
            | ']' :: r => some (Json.arr [], r)
            | _ => parseElems fuel t []
          else if c == '-' || c.isDigit then
            (parseNumber (c :: t)).map (fun p => (Json.num p.1, p.2))
          else none

def parseMembers : Nat → List Char → List (List Char × Json) →
    Option (Json × List Char)
  | 0, _, _ => none
  | fuel + 1, s, acc =>
      match skipWs s with
      | '"' :: rest =>
          match parseStringBody (rest.length + 1) rest with
          | none => none
          | some (key, r1) =>
              match skipWs r1 with
              | ':' :: r2 =>
                  match parseValue fuel r2 with
                  | none => none
                  | some (v, r3) =>
                      match skipWs r3 with
                      | ',' :: r4 => parseMembers fuel r4 (acc ++ [(key, v)])
                      | '}' :: r4 => some (Json.obj (acc ++ [(key, v)]), r4)
                      | _ => none
              | _ => none
      | _ => none

def parseElems : Nat → List Char → List Json → Option (Json × List Char)
  | 0, _, _ => none
  | fuel + 1, s, acc =>
      match parseValue fuel s with
      | none => none
      | some (v, r1) =>
          match skipWs r1 with
          | ',' :: r2 => parseElems fuel r2 (acc ++ [v])
          | ']' :: r2 => some (Json.arr (acc ++ [v]), r2)
          | _ => none

end

/-- `json.Unmarshal([]byte(line), &logEntry)` with
`logEntry : map[string]interface{}`: succeeds exactly when the whole line
is one JSON object plus surrounding whitespace. -/
def decodeLogEntry (line : List Char) : Option (List (List Char × Json)) :=
  match parseValue (line.length + 1) line with
  | some (Json.obj fields, rest) => if skipWs rest = [] then some fields else none
  | _ => none

/-- Go map lookup after building from field list: the last binding wins. -/
def lookupLast (fields : List (List Char × Json)) (key : List Char) : Option Json :=
  fields.foldl (fun acc kv => if kv.1 = key then some kv.2 else acc) none

/-- `logEntry["level"].(string)`: `some` exactly when a `level` field
exists and its value is a JSON string. -/
def getLevelString (fields : List (List Char × Json)) : Option (List Char) :=
  match lookupLast fields ("level".toList) with
  | some (Json.str s) => some s
  | _ => none

example : decodeLogEntry ("\x7b\"level\":\"warn\"\x7d".toList) =
    some [("level".toList, Json.str ("warn".toList))] := by rfl
example : decodeLogEntry ("not json".toList) = none := by rfl
example : decodeLogEntry ("\x7b\"a\":[1,true,null], \"level\":\"x\"\x7d".toList) =
    some [("a".toList, Json.arr [Json.num ['1'], Json.bool true, Json.null]),
          ("level".toList, Json.str ['x'])] := by rfl

/-! ## Structured-level override (`PrintLogLine` lines 48-63)

The constants come from `main.go`; the level sets are obtained by
splitting on `|` exactly as the call sites do. -/

def errorLevelJson : List Char := "error|critical|fatal".toList

def warnLevelJson : List Char := "warn|warning|panic".toList

def debugLevelJson : List Char := "debug".toList

def errorLevels : List (List Char) := splitOnChar '|' errorLevelJson

def warnLevels : List (List Char) := splitOnChar '|' warnLevelJson

def debugLevels : List (List Char) := splitOnChar '|' debugLevelJson

/-- The override `switch` run on the lowercased `level` string. -/
def overrideColor (levelLower : List Char) : Color :=
  if ContainsAny levelLower errorLevels then Color.red
  else if ContainsAny levelLower warnLevels then Color.yellow
  else if ContainsAny levelLower debugLevels then Color.cyan
  else Color.white

/-- Final color of the classification stage of `PrintLogLine`: the
plain-text verdict, replaced by the structured-level verdict only when the
line decodes as a JSON object carrying a string `level` field. -/
def colorOf (line : List Char) : Color :=
  match decodeLogEntry line with
  | some fields =>
      match getLevelString fields with
      | some level => overrideColor (toLowerL level)
      | none => plainColor line
  | none => plainColor line

example : colorOf ("\x7b\"level\":\"debug\",\"msg\":\"tick\"\x7d".toList) = Color.cyan := by rfl
example : colorOf ("plain [ERROR] text".toList) = Color.red := by rfl

/-! ## Timestamp parsing and formatting

`time.Parse(time.RFC3339Nano, candidate)` in the Go 1.21 the repository
builds with: `Parse` first tries a strict RFC 3339 fast path and, when
that fails, falls back to the lenient generic layout parser for
`"2006-01-02T15:04:05.999999999Z07:00"` (go.dev/issue/54580), whose
accepted language subsumes the fast path's, so `Parse` accepts exactly
what the generic parser accepts.  The generic parser demands a 4-digit
year, 2-digit zero-padded month/day/minute/second and literal `-`/`T`/`:`
separators, but the hour token `15` is parsed non-fixed, so one or two
digits; the optional fraction starts with `.` or `,` and consumes any
number of digits, keeping the first 9 and truncating the rest without
error (`parseNanoseconds` caps at 10 bytes); the zone is an uppercase `Z`
or `±hh:mm` with 2-digit fields that are not range-checked (`+99:00` is
accepted).  Month, day (calendar-aware), hour, minute and second are
range-checked.  `Format("2006-01-02T15:04:05.000")` prints the parsed
wall-clock fields back with milliseconds (fraction truncated to three
digits), so the offset only needs validating syntactically, not
storing. -/

structure GoTime where
  year : Nat
  month : Nat
  day : Nat
  hour : Nat
  minute : Nat
  second : Nat
  nanos : Nat
deriving DecidableEq

def isLeapYear (y : Nat) : Bool :=
  y % 4 == 0 && (y % 100 != 0 || y % 400 == 0)

def daysInMonth (y m : Nat) : Nat :=
  if m == 2 then (if isLeapYear y then 29 else 28)
  else if m == 4 || m == 6 || m == 9 || m == 11 then 30
  else 31

def digVal (c : Char) : Nat :=
  c.toNat - '0'.toNat

def natOfDigits (ds : List Char) : Nat :=
  ds.foldl (fun a c => a * 10 + digVal c) 0

/-- `getnum(value, false)` for the layout token `15`: one digit, or two
when a second digit follows (greedy). -/
def getnum2 : List Char → Option (Nat × List Char)
  | [] => none
  | [c] => if c.isDigit then some (digVal c, []) else none
  | c1 :: c2 :: t =>
      if c1.isDigit then
        if c2.isDigit then some (digVal c1 * 10 + digVal c2, t)
        else some (digVal c1, c2 :: t)
      else none

/-- Parse the timezone suffix that must end the input: `Z`, or `±hh:mm`
with 2-digit fields; the generic layout parser performs no range check on
the offset fields. -/
def parseTz : List Char → Bool
  | ['Z'] => true
  | [c, o1, o2, ':', o3, o4] =>
      (c == '+' || c == '-') && o1.isDigit && o2.isDigit && o3.isDigit && o4.isDigit
  | _ => false

/-- Parse the optional fractional seconds (`.` or `,` plus at least one
digit; all digits are consumed, the first 9 kept and the rest truncated,
as `parseNanoseconds` does) followed by the timezone; yields the
nanosecond count on success. -/
def parseFracTz (rest : List Char) : Option Nat :=
  match rest with
  | sep :: d :: t =>
      if (sep == '.' || sep == ',') && d.isDigit then
        let ds := (d :: t).takeWhile Char.isDigit
        if parseTz ((d :: t).dropWhile Char.isDigit) then
          some (natOfDigits (ds.take 9) * 10 ^ (9 - min 9 ds.length))
        else none
      else if parseTz rest then some 0 else none
  | _ => if parseTz rest then some 0 else none

/-- `time.Parse(time.RFC3339Nano, s)` — the generic layout parser's
accepted language — returning the wall-clock fields. -/
def parseRFC3339Nano (s : List Char) : Option GoTime :=
  match s with
  | y1 :: y2 :: y3 :: y4 :: '-' :: m1 :: m2 :: '-' :: d1 :: d2 :: 'T' :: rest =>
      if y1.isDigit && y2.isDigit && y3.isDigit && y4.isDigit && m1.isDigit
          && m2.isDigit && d1.isDigit && d2.isDigit then
        let year := natOfDigits [y1, y2, y3, y4]
        let month := natOfDigits [m1, m2]
        let day := natOfDigits [d1, d2]
        match getnum2 rest with
        | some (hour, ':' :: mi1 :: mi2 :: ':' :: s1 :: s2 :: rest2) =>
            if mi1.isDigit && mi2.isDigit && s1.isDigit && s2.isDigit then
              let minute := natOfDigits [mi1, mi2]
              let second := natOfDigits [s1, s2]
              if 1 ≤ month && month ≤ 12 && 1 ≤ day && day ≤ daysInMonth year month
                  && hour ≤ 23 && minute ≤ 59 && second ≤ 59 then
                match parseFracTz rest2 with
                | some nanos => some ⟨year, month, day, hour, minute, second, nanos⟩
                | none => none
              else none
            else none
        | _ => none
      else none
  | _ => none

/-- Decimal digits of `n`, padded on the left with zeros to width `w`. -/
def padN (w n : Nat) : List Char :=
  let ds := Nat.toDigits 10 n
  List.replicate (w - ds.length) '0' ++ ds

/-- `t.Format(timestampFormat)` with `timestampFormat =
"2006-01-02T15:04:05.000"` from `main.go`. -/
def formatTimestamp (t : GoTime) : List Char :=
  padN 4 t.year ++ '-' :: padN 2 t.month ++ '-' :: padN 2 t.day ++ 'T' ::
    padN 2 t.hour ++ ':' :: padN 2 t.minute ++ ':' :: padN 2 t.second ++ '.' ::
    padN 3 (t.nanos / 1000000)

/-- The timestamp-conversion block of `PrintLogLine`: a non-empty
candidate that parses is reformatted; otherwise it is kept verbatim. -/
def normalizeTimestamp (ts : List Char) : List Char :=
  if ts ≠ [] then
    match parseRFC3339Nano ts with
    | some t => formatTimestamp t
    | none => ts
  else ts

example : parseRFC3339Nano ("2024-01-01T00:00:00.000000000Z".toList) =
    some ⟨2024, 1, 1, 0, 0, 0, 0⟩ := by rfl
example : normalizeTimestamp ("2024-03-05T06:07:08.123456789+02:00".toList) =
    "2024-03-05T06:07:08.123".toList := by rfl
example : normalizeTimestamp ("INFO".toList) = "INFO".toList := by rfl
example : parseRFC3339Nano ("2023-02-29T00:00:00Z".toList) = none := by rfl
example : parseRFC3339Nano ("2024-01-01T5:04:05Z".toList) =
    some ⟨2024, 1, 1, 5, 4, 5, 0⟩ := by rfl
example : parseRFC3339Nano ("2024-01-01T05:04:05,25Z".toList) =
    some ⟨2024, 1, 1, 5, 4, 5, 250000000⟩ := by rfl
example : parseRFC3339Nano ("2024-01-01T05:04:05.12345678999Z".toList) =
    some ⟨2024, 1, 1, 5, 4, 5, 123456789⟩ := by rfl
example : parseRFC3339Nano ("2024-01-01T05:04:05+99:00".toList) =
    some ⟨2024, 1, 1, 5, 4, 5, 0⟩ := by rfl
example : parseRFC3339Nano ("2024-01-01t05:04:05Z".toList) = none := by rfl

/-! ## Keyword highlighter (`HighlightKeyword`)

`regexp.MustCompile(keyword).FindAllStringIndex(line, -1)` computes the
successive left-to-right non-overlapping match intervals of the compiled
pattern.  The compiled pattern is embedded abstractly as `CompiledRegex`:
its `findAll` is the pattern's `FindAllStringIndex`, constrained by the
interval contract that function guarantees for every pattern (`chainB`);
`MustCompile` panics instead of returning for an invalid keyword, so a
`CompiledRegex` exists exactly for the keywords the program can render
with.  For a metacharacter-free keyword the compiled pattern matches
exactly the literal occurrences, computed by `findAllIdx`.  The rebuild
loop alternates base-colored gap text and highlight-colored match text;
it is expressed here as a span decomposition (`hlSpans`) followed by
rendering, whose concatenation is exactly the source's `result +=`
accumulation. -/

/-- Successive non-overlapping occurrence intervals of `kw`, searching in
`s` which sits at absolute offset `base` of the original line. -/
def findAllAux (kw : List Char) : Nat → List Char → Nat → List (Nat × Nat)
  | 0, _, _ => []
  | fuel + 1, s, base =>
      match firstOcc kw s with
      | none => []
      | some j =>
          (base + j, base + j + kw.length) ::
            findAllAux kw fuel (s.drop (j + kw.length)) (base + j + kw.length)

/-- `FindAllStringIndex(line, -1)` for the literal pattern `kw`. -/
def findAllIdx (line kw : List Char) : List (Nat × Nat) :=
  findAllAux kw (line.length + 1) line 0

/-- The rebuild loop of `HighlightKeyword` as a span list: `false` spans
are the gaps rendered with the base color function, `true` spans are the
matches rendered with the magenta highlight; `start` is `startIndex`. -/
def hlSpans (line : List Char) : List (Nat × Nat) → Nat → List (Bool × List Char)
  | [], start => [(false, line.drop start)]
  | (a, b) :: rest, start =>
      (false, (line.drop start).take (a - start)) ::
        (true, (line.drop a).take (b - a)) :: hlSpans line rest b

/-- Span decomposition of `HighlightKeyword`'s output. -/
def highlightSpans (line kw : List Char) : List (Bool × List Char) :=
  hlSpans line (findAllIdx line kw) 0

/-- `pterm.BgMagenta.Sprint`. -/
def bgMagentaSprint (s : List Char) : List Char :=
  sprint Color.bgMagenta s

/-- Render the spans: gaps through `colorFunc`, matches through the
magenta highlight, concatenated in order. -/
def renderSpans (spans : List (Bool × List Char))
    (colorFunc : List Char → List Char) : List Char :=
  (spans.map (fun sp => if sp.1 then bgMagentaSprint sp.2 else colorFunc sp.2)).flatten

theorem firstOcc_spec (kw : List Char) (s : List Char) (j : Nat)
    (h : firstOcc kw s = some j) :
    j ≤ s.length ∧ kw.isPrefixOf (s.drop j) = true := by
  induction s generalizing j with
  | nil =>
      simp only [firstOcc] at h
      split at h
      · rename_i hp
        cases h
        exact ⟨Nat.le_refl 0, hp⟩
      · exact Option.noConfusion h
  | cons c t ih =>
      simp only [firstOcc] at h
      split at h
      · rename_i hp
        cases h
        exact ⟨Nat.zero_le _, hp⟩
      · cases ho : firstOcc kw t with
        | none => rw [ho] at h; exact Option.noConfusion h
        | some j0 =>
            rw [ho] at h
            simp only [Option.map_some'] at h
            cases h
            obtain ⟨h1, h2⟩ := ih j0 ho
            exact ⟨Nat.succ_le_succ h1, h2⟩

/-- Bounded, ordered, non-overlapping match intervals: each interval sits
between the running start and the line length, and successive intervals
follow one another. -/
def chainB : Nat → Nat → List (Nat × Nat) → Prop
  | _, _, [] => True
  | lo, hi, m :: rest => lo ≤ m.1 ∧ m.1 ≤ m.2 ∧ m.2 ≤ hi ∧ chainB m.2 hi rest

theorem isPrefixOf_length_le (kw t : List Char) (h : kw.isPrefixOf t = true) :
    kw.length ≤ t.length :=
  (List.isPrefixOf_iff_prefix.mp h).length_le

theorem findAllAux_chain (kw : List Char) (fuel : Nat) :
    ∀ (s : List Char) (base : Nat),
      chainB base (base + s.length) (findAllAux kw fuel s base) := by
  induction fuel with
  | zero => intro s base; trivial
  | succ fuel ih =>
      intro s base
      simp only [findAllAux]
      cases ho : firstOcc kw s with
      | none => trivial
      | some j =>
          obtain ⟨hj, hp⟩ := firstOcc_spec kw s j ho
          have hlen : kw.length ≤ s.length - j := by
            have := isPrefixOf_length_le kw (s.drop j) hp
            simpa using this
          have hjk : j + kw.length ≤ s.length := by omega
          refine ⟨by omega, by omega, by omega, ?_⟩
          have h2 := ih (s.drop (j + kw.length)) (base + j + kw.length)
          have he : base + j + kw.length + (s.drop (j + kw.length)).length =
              base + s.length := by
            rw [List.length_drop]
            omega
          rw [he] at h2
          exact h2

/-- Modelled from the documented contract of a compiled `regexp`
pattern: `findAll` is its `FindAllStringIndex(·, -1)`, whose successive
non-overlapping left-to-right match intervals always lie within the
bounds of the subject string — the `chain` field. -/
structure CompiledRegex where
  findAll : List Char → List (Nat × Nat)
  chain : ∀ s : List Char, chainB 0 s.length (findAll s)

/-- The compiled form of a metacharacter-free keyword: its regex matches
are exactly the successive literal occurrences. -/
def litCompiled (kw : List Char) : CompiledRegex :=
  ⟨fun s => findAllIdx s kw, fun s => by
    have h := findAllAux_chain kw (s.length + 1) s 0
    rwa [Nat.zero_add] at h⟩

/-- `HighlightKeyword` with the keyword's compiled pattern made explicit:
the rebuild loop over the pattern's match intervals, rendered as
alternating base-colored gaps and magenta-highlighted matches. -/
def HighlightKeywordRe (re : CompiledRegex) (line : List Char)
    (colorFunc : List Char → List Char) : List Char :=
  renderSpans (hlSpans line (re.findAll line) 0) colorFunc

/-- `HighlightKeyword` from the rendering file, for a metacharacter-free
keyword (whose compiled pattern matches exactly the literal
occurrences). -/
def HighlightKeyword (line kw : List Char)
    (colorFunc : List Char → List Char) : List Char :=
  HighlightKeywordRe (litCompiled kw) line colorFunc

example : highlightSpans ("xabyab".toList) ("ab".toList) =
    [(false, ['x']), (true, ['a', 'b']), (false, ['y']), (true, ['a', 'b']),
     (false, [])] := by rfl
example : HighlightKeyword ("xab".toList) ("ab".toList) (sprint Color.red) =
    ("\x1b[31mx\x1b[0m\x1b[45mab\x1b[0m\x1b[31m\x1b[0m").toList := by rfl

/-! ## The rendering pipeline (`PrintLogLine`)

The embedding returns the full printed line (`fmt.Printf` output,
trailing newline included), or `none` when keyword-only mode suppresses
the line.  The pod name arrives pre-colored by the caller
(`podColor.Sprint(podName)` in `streamLogs`), so it is used as given. -/

/-- The remainder of the line after the optional timestamp split. -/
def remainderOf (line : List Char) (timestampFlag : Bool) : List Char :=
  if timestampFlag then (splitTimestamp line).2 else line

/-- The timestamp candidate extracted by the optional split. -/
def timestampOf (line : List Char) (timestampFlag : Bool) : List Char :=
  if timestampFlag then (splitTimestamp line).1 else []

/-- `fmt.Sprintf("[%s] ", podName)` when `showPodName` is set. -/
def podPrefix (podName : List Char) (showPodName : Bool) : List Char :=
  if showPodName then '[' :: podName ++ ']' :: ' ' :: [] else []

/-- `PrintLogLine` from the rendering file, with the keyword's compiled
pattern made an explicit argument (`MustCompile(keyword)` is re-run
inside `HighlightKeyword` on every rendered line and always yields the
same compiled pattern; for an invalid keyword it panics there instead,
before any line is rendered). -/
def PrintLogLineRe (podName line keyword : List Char) (re : CompiledRegex)
    (keywordOnly showPodName timestampFlag : Bool) : Option (List Char) :=
  let rem := remainderOf line timestampFlag
  let ts := normalizeTimestamp (timestampOf line timestampFlag)
  let colorFunc := colorOf rem
  let pfx := podPrefix podName showPodName
  if keyword ≠ [] ∧ keywordOnly then
    if containsSub rem keyword then
      some (pfx ++ sprint Color.darkGray ts ++ ' ' ::
        (HighlightKeywordRe re (sprint colorFunc rem) (sprint colorFunc) ++ '\n' :: []))
    else none
  else if keyword ≠ [] then
    some (pfx ++ sprint Color.darkGray ts ++ ' ' ::
      (HighlightKeywordRe re (sprint colorFunc rem) (sprint colorFunc) ++ '\n' :: []))
  else
    some (pfx ++ sprint Color.darkGray ts ++ ' ' ::
      (sprint colorFunc rem ++ '\n' :: []))

/-- `PrintLogLine` from the rendering file, specialized to a
metacharacter-free keyword (the compiled pattern then matches exactly
the literal occurrences). -/
def PrintLogLine (podName line keyword : List Char)
    (keywordOnly showPodName timestampFlag : Bool) : Option (List Char) :=
  PrintLogLineRe podName line keyword (litCompiled keyword)
    keywordOnly showPodName timestampFlag

example : PrintLogLine ("p".toList) ("level=error something failed".toList) [] false false false =
    some (("\x1b[90m\x1b[0m \x1b[31mlevel=error something failed\x1b[0m\n").toList) := by rfl
example : PrintLogLine ("p".toList) ("abc def".toList) ("zzz".toList) true false true = none := by rfl

/-! ## Pod color assignment (`GetPodColor`)

`fnv.New32a` over the UTF-8 bytes of the pod name, then
`colorIndex := int(hashValue) % len(colorPalette)`.  Go's `int` is
platform-dependent: 64 bits on the amd64/arm64 release targets, where
the `uint32 → int` conversion preserves the value, but 32 bits on the
GOARCH=386 targets the repository's release workflow also builds, where
the conversion wraps hashes ≥ 2^31 to negative values.  Go's `%` is
truncated division (`Int.tmod`), so a negative dividend gives a negative
index and `colorPalette[colorIndex]` panics.  Both conversions are
modelled. -/

def colorPalette : List Color :=
  [ Color.fgRed, Color.fgGreen, Color.fgYellow, Color.fgBlue, Color.fgMagenta,
    Color.fgCyan, Color.fgLightYellow, Color.fgLightBlue, Color.fgLightMagenta,
    Color.fgLightCyan ]

/-- UTF-8 bytes of one character. -/
def utf8Bytes (c : Char) : List Nat :=
  let n := c.toNat
  if n < 128 then [n]
  else if n < 2048 then [192 + n / 64, 128 + n % 64]
  else if n < 65536 then [224 + n / 4096, 128 + (n / 64) % 64, 128 + n % 64]
  else [240 + n / 262144, 128 + (n / 4096) % 64, 128 + (n / 64) % 64, 128 + n % 64]

/-- UTF-8 bytes of a string, as `hash.Write([]byte(podName))` consumes. -/
def strBytes (s : List Char) : List Nat :=
  (s.map utf8Bytes).flatten

/-- One step of FNV-1a 32-bit: xor the byte in, multiply by the prime,
wrap at 2^32. -/
def fnv32aStep (h b : Nat) : Nat :=
  ((h ^^^ b) * 16777619) % 4294967296

/-- FNV-1a 32-bit hash (`fnv.New32a` + `Sum32`), offset basis 2166136261. -/
def fnv32a (bytes : List Nat) : Nat :=
  bytes.foldl fnv32aStep 2166136261

/-- `colorIndex := int(hashValue) % len(colorPalette)` on a target where
`int` is 64 bits: the conversion preserves the value. -/
def GetPodColorIndex64 (podName : List Char) : Int :=
  Int.tmod (Int.ofNat (fnv32a (strBytes podName))) (Int.ofNat colorPalette.length)

/-- Go's conversion `int(hashValue)` on a 32-bit target (GOARCH=386):
the `uint32` wraps into `int32`. -/
def int32OfUint32 (n : Nat) : Int :=
  if n < 2147483648 then Int.ofNat n else Int.ofNat n - 4294967296

/-- `colorIndex := int(hashValue) % len(colorPalette)` on a 32-bit
target: wrapped conversion, then truncated `%`, which is negative
whenever the wrapped value is. -/
def GetPodColorIndex32 (podName : List Char) : Int :=
  Int.tmod (int32OfUint32 (fnv32a (strBytes podName))) (Int.ofNat colorPalette.length)

/-- `GetPodColor` from the rendering file as executed on a 64-bit target
(`colorPalette[colorIndex]`; Go panics when the index is out of range,
so the embedding's default is reachable only if the index bound
fails). -/
def GetPodColor (podName : List Char) : Color :=
  colorPalette.getD (GetPodColorIndex64 podName).toNat Color.fgRed

example : fnv32a (strBytes ("a".toList)) = 3826002220 := by rfl
example : GetPodColor ("my-pod".toList) = GetPodColor ("my-pod".toList) := by rfl

/-! ## Concurrent fan-out (all-pods mode of `klog`)

The all-pods branch of `klog` adds `len(matchedPods)` to a wait group,
then for each pod acquires a slot of a 10-slot counting semaphore
(`sem <- struct{}{}` on a channel of capacity `maxConcurrency`) and
spawns a goroutine that streams that pod and, in a `defer`, releases the
slot and signals the wait group; `wg.Wait()` blocks until every task is
done.  A stream error inside `streamLogs` only makes that one goroutine
return.  The embedding is a transition system over the task-counting
state; a step either starts a pending task under the semaphore bound or
finishes a running task, normally or with a stream error. -/

def maxConcurrency : Nat := 10

structure FanState where
  pending : Nat
  running : Nat
  doneOk : Nat
  doneErr : Nat
deriving DecidableEq

/-- One scheduler step of the fan-out. -/
inductive FanStep : FanState → FanState → Prop
  | start (s : FanState) :
      s.pending ≠ 0 → s.running < maxConcurrency →
      FanStep s ⟨s.pending - 1, s.running + 1, s.doneOk, s.doneErr⟩
  | finishOk (s : FanState) :
      s.running ≠ 0 →
      FanStep s ⟨s.pending, s.running - 1, s.doneOk + 1, s.doneErr⟩
  | finishErr (s : FanState) :
      s.running ≠ 0 →
      FanStep s ⟨s.pending, s.running - 1, s.doneOk, s.doneErr + 1⟩

/-- Initial state with `n` matched pods. -/
def initFan (n : Nat) : FanState :=
  ⟨n, 0, 0, 0⟩

/-- States the fan-out with `n` pods can reach. -/
def FanReach (n : Nat) (s : FanState) : Prop :=
  Relation.ReflTransGen FanStep (initFan n) s

/-- Effect of one pod's stream failing: that task (and only that task)
ends, with its error reported. -/
def errStep (s : FanState) : FanState :=
  ⟨s.pending, s.running - 1, s.doneOk, s.doneErr + 1⟩

/-- The state in which every remaining task has run to normal
completion. -/
def drainOk (s : FanState) : FanState :=
  ⟨0, 0, s.doneOk + s.running + s.pending, s.doneErr⟩

/-- `wg.Wait()` returns: no task is pending or running. -/
def fanReturned (s : FanState) : Prop :=
  s.pending = 0 ∧ s.running = 0

/-! ## Theorems -/

theorem tmod_ofNat_ofNat (m k : Nat) :
    Int.tmod (Int.ofNat m) (Int.ofNat k) = Int.ofNat (m % k) := rfl

/-- C10 counterexample: on the repository's 32-bit (GOARCH=386) release
targets the claimed totality fails: the FNV-1a hash of pod name `a` is
3826002220 ≥ 2^31, the `int(hashValue)` conversion wraps it to
-468965076, and the truncated modulo gives index -6 — negative, so
`colorPalette[colorIndex]` is out of bounds there (a Go runtime panic),
refuting "always non-negative … never goes out of bounds". -/
theorem getPodColor_int32_counterexample :
    fnv32a (strBytes ("a".toList)) = 3826002220 ∧
    int32OfUint32 (fnv32a (strBytes ("a".toList))) = -468965076 ∧
    GetPodColorIndex32 ("a".toList) = -6 ∧
    GetPodColorIndex32 ("a".toList) < 0 :=
  ⟨by rfl, by decide, by decide, by decide⟩

/-- C10 amended: on targets where Go's `int` is 64 bits (the amd64 and
arm64 release builds), the palette index — the FNV-1a 32-bit hash of the
pod name, value-preservingly converted to `int` and reduced by truncated
modulo with the palette length — is non-negative and strictly below the
palette length (10), so `GetPodColor` is total, never indexes out of
bounds, always returns a palette entry, and the same name always yields
the same color; on the 32-bit (GOARCH=386) release targets the
conversion wraps instead and the index can be negative, where the
program panics (see the counterexample). -/
theorem getPodColor_total_in_palette (name : List Char) :
    0 ≤ GetPodColorIndex64 name ∧
    GetPodColorIndex64 name < Int.ofNat colorPalette.length ∧
    GetPodColor name ∈ colorPalette := by
  have hlen : colorPalette.length = 10 := by decide
  have hidx : GetPodColorIndex64 name =
      Int.ofNat (fnv32a (strBytes name) % 10) := by
    unfold GetPodColorIndex64
    rw [hlen, tmod_ofNat_ofNat]
  have hmod : fnv32a (strBytes name) % 10 < 10 :=
    Nat.mod_lt _ (by decide)
  refine ⟨?_, ?_, ?_⟩
  · rw [hidx]; exact Int.ofNat_nonneg _
  · rw [hidx, hlen]; exact Int.ofNat_lt.mpr hmod
  · unfold GetPodColor
    rw [hidx]
    have htn : (Int.ofNat (fnv32a (strBytes name) % 10)).toNat =
        fnv32a (strBytes name) % 10 := rfl
    rw [htn, List.getD_eq_getElem?_getD]
    have hlt : fnv32a (strBytes name) % 10 < colorPalette.length := by
      rw [hlen]; exact hmod
    rw [List.getElem?_eq_getElem hlt]
    simp only [Option.getD_some]
    exact List.getElem_mem hlt

theorem firstOcc_space_of_not_mem (line : List Char) (h : ' ' ∉ line) :
    firstOcc ([' ']) line = none := by
  induction line with
  | nil => rfl
  | cons c t ih =>
      have hc : ¬ (' ' = c) := fun he => h (he ▸ List.mem_cons_self c t)
      have ht : ' ' ∉ t := fun hm => h (List.mem_cons_of_mem c hm)
      simp only [firstOcc, List.isPrefixOf, List.isPrefixOf.eq_def]
      have : ((' ' == c) && true) = false := by
        simp [beq_iff_eq, hc]
      simp only [this, Bool.false_eq_true, if_false, ih ht, Option.map_none']

/-- C6 counterexample: with timestamp extraction enabled and a line
containing no whitespace (`"hello"`), the claim predicts the whole line
becomes the timestamp candidate and the remainder is empty; the code's
`SplitN` guard (`len(parts) == 2`) fails instead, so no timestamp is
extracted and the whole line remains the content — which is then
classified and rendered, visible in the full pipeline output. -/
theorem timestamp_no_space_counterexample :
    splitTimestamp ("hello".toList) = ([], "hello".toList) ∧
    splitTimestamp ("hello".toList) ≠ ("hello".toList, []) ∧
    PrintLogLine ("p".toList) ("hello".toList) [] false false true =
      some (("\x1b[90m\x1b[0m \x1b[37mhello\x1b[0m\n").toList) := by
  refine ⟨by decide, by decide, by rfl⟩

/-- C6 amended: when timestamp extraction is enabled and the input line
contains no space, no timestamp is extracted (the candidate is empty) and
the entire line is passed unchanged to classification and rendering. -/
theorem timestamp_no_space_amended (line : List Char) (h : ' ' ∉ line) :
    splitTimestamp line = ([], line) := by
  unfold splitTimestamp
  rw [firstOcc_space_of_not_mem line h]

theorem timestamp_no_space_amended_witness :
    ' ' ∉ ("hello".toList) ∧ splitTimestamp ("hello".toList) = ([], "hello".toList) :=
  ⟨by decide, timestamp_no_space_amended ("hello".toList) (by decide)⟩

/-- C1: any input line that decodes as a full-line JSON object whose
`level` field equals `"warn"` is colored Warning (yellow) by the
rendering pipeline, whatever the plain-text classifier said about the
same line — the structured override wins unconditionally. -/
theorem structured_warn_overrides (line : List Char)
    (fields : List (List Char × Json))
    (hdec : decodeLogEntry line = some fields)
    (hlvl : getLevelString fields = some ("warn".toList)) :
    colorOf line = Color.yellow := by
  simp only [colorOf, hdec, hlvl]
  decide

theorem structured_warn_overrides_witness :
    IsError ("\x7b\"level\":\"warn\",\"msg\":\"[ERROR] boom\"\x7d".toList) = true ∧
    colorOf ("\x7b\"level\":\"warn\",\"msg\":\"[ERROR] boom\"\x7d".toList) = Color.yellow :=
  ⟨by decide,
   structured_warn_overrides ("\x7b\"level\":\"warn\",\"msg\":\"[ERROR] boom\"\x7d".toList)
     [("level".toList, Json.str ("warn".toList)),
      ("msg".toList, Json.str ("[ERROR] boom".toList))]
     (by rfl) (by rfl)⟩

/-- C2 counterexample: the line `{"msg":"ERROR"}` decodes as a full-line
JSON object with the `level` field absent, yet the final color is red —
the plain-text Error verdict stands, contradicting the claim that an
absent `level` field yields an overriding Normal verdict. -/
theorem structured_absent_level_counterexample :
    decodeLogEntry ("\x7b\"msg\":\"ERROR\"\x7d".toList) =
      some [("msg".toList, Json.str ("ERROR".toList))] ∧
    getLevelString [("msg".toList, Json.str ("ERROR".toList))] = none ∧
    colorOf ("\x7b\"msg\":\"ERROR\"\x7d".toList) = Color.red ∧
    Color.red ≠ Color.white :=
  ⟨by rfl, by rfl, by rfl, by decide⟩

/-- C2 amended: for a full-line JSON record, a string-valued `level`
falling (case-insensitively) outside all three token sets yields Normal
(white), overriding any prior Pattern-Classifier verdict; but when the
`level` field is absent — or not a string — no override happens at all
and the Pattern Classifier's verdict stands. -/
theorem structured_level_override_amended (line : List Char)
    (fields : List (List Char × Json))
    (hdec : decodeLogEntry line = some fields) :
    (∀ lv, getLevelString fields = some lv →
      ContainsAny (toLowerL lv) errorLevels = false →
      ContainsAny (toLowerL lv) warnLevels = false →
      ContainsAny (toLowerL lv) debugLevels = false →
      colorOf line = Color.white) ∧
    (getLevelString fields = none → colorOf line = plainColor line) := by
  constructor
  · intro lv hlvl he hw hd
    simp only [colorOf, hdec, hlvl, overrideColor, he, hw, hd]
    decide
  · intro hlvl
    simp only [colorOf, hdec, hlvl]

theorem structured_level_override_amended_witness :
    IsError ("\x7b\"level\":\"info\",\"msg\":\"[ERROR]\"\x7d".toList) = true ∧
    colorOf ("\x7b\"level\":\"info\",\"msg\":\"[ERROR]\"\x7d".toList) = Color.white ∧
    colorOf ("\x7b\"msg\":\"ERROR\"\x7d".toList) =
      plainColor ("\x7b\"msg\":\"ERROR\"\x7d".toList) :=
  ⟨by decide,
   (structured_level_override_amended
      ("\x7b\"level\":\"info\",\"msg\":\"[ERROR]\"\x7d".toList)
      [("level".toList, Json.str ("info".toList)),
       ("msg".toList, Json.str ("[ERROR]".toList))]
      (by rfl)).1 ("info".toList) (by rfl) (by rfl) (by rfl) (by rfl),
   (structured_level_override_amended ("\x7b\"msg\":\"ERROR\"\x7d".toList)
      [("msg".toList, Json.str ("ERROR".toList))] (by rfl)).2 (by rfl)⟩

/-- C9: the structured-level mapping is decided by substring containment
of the lowercased `level` value, not exact token equality: containing any
of error/critical/fatal anywhere makes the line red (Error); otherwise
containing any of warn/warning/panic makes it yellow (Warning); otherwise
containing debug makes it cyan (Debug). -/
theorem structured_level_substring_containment (line : List Char)
    (fields : List (List Char × Json)) (lv : List Char)
    (hdec : decodeLogEntry line = some fields)
    (hlvl : getLevelString fields = some lv) :
    (ContainsAny (toLowerL lv) errorLevels = true → colorOf line = Color.red) ∧
    (ContainsAny (toLowerL lv) errorLevels = false →
      ContainsAny (toLowerL lv) warnLevels = true → colorOf line = Color.yellow) ∧
    (ContainsAny (toLowerL lv) errorLevels = false →
      ContainsAny (toLowerL lv) warnLevels = false →
      ContainsAny (toLowerL lv) debugLevels = true → colorOf line = Color.cyan) := by
  refine ⟨fun he => ?_, fun he hw => ?_, fun he hw hd => ?_⟩
  · simp only [colorOf, hdec, hlvl, overrideColor, he, if_true]
  · simp [colorOf, hdec, hlvl, overrideColor, he, hw]
  · simp [colorOf, hdec, hlvl, overrideColor, he, hw, hd]

theorem structured_level_substring_witness :
    colorOf ("\x7b\"level\":\"nonfatal\"\x7d".toList) = Color.red ∧
    colorOf ("\x7b\"level\":\"my-error\"\x7d".toList) = Color.red ∧
    colorOf ("\x7b\"level\":\"prewarned\"\x7d".toList) = Color.yellow :=
  ⟨(structured_level_substring_containment ("\x7b\"level\":\"nonfatal\"\x7d".toList)
      [("level".toList, Json.str ("nonfatal".toList))] ("nonfatal".toList)
      (by rfl) (by rfl)).1 (by rfl),
   (structured_level_substring_containment ("\x7b\"level\":\"my-error\"\x7d".toList)
      [("level".toList, Json.str ("my-error".toList))] ("my-error".toList)
      (by rfl) (by rfl)).1 (by rfl),
   (structured_level_substring_containment ("\x7b\"level\":\"prewarned\"\x7d".toList)
      [("level".toList, Json.str ("prewarned".toList))] ("prewarned".toList)
      (by rfl) (by rfl)).2.1 (by rfl) (by rfl)⟩

/-- C7: with timestamp extraction enabled, a leading token that parses as
an RFC 3339 timestamp (with fractional seconds) is reformatted to the
fixed display format `YYYY-MM-DDThh:mm:ss.sss`, and a token that fails to
parse is kept verbatim; in particular the line
`2024-01-01T00:00:00.000000000Z INFO starting up` renders with displayed
timestamp `2024-01-01T00:00:00.000` and remainder `INFO starting up`
classified Normal (white, the default color). -/
theorem timestamp_reformat_or_verbatim :
    (∀ ts : List Char, parseRFC3339Nano ts = none → normalizeTimestamp ts = ts) ∧
    (∀ ts t, parseRFC3339Nano ts = some t → normalizeTimestamp ts = formatTimestamp t) ∧
    colorOf ("INFO starting up".toList) = Color.white ∧
    PrintLogLine ("p".toList)
        ("2024-01-01T00:00:00.000000000Z INFO starting up".toList) [] false false true =
      some (("\x1b[90m2024-01-01T00:00:00.000\x1b[0m \x1b[37mINFO starting up\x1b[0m\n").toList) := by
  refine ⟨fun ts h => ?_, fun ts t h => ?_, by rfl, by rfl⟩
  · unfold normalizeTimestamp
    split
    · rw [h]
    · rfl
  · unfold normalizeTimestamp
    split
    · rw [h]
    · rename_i hts
      have : ts = [] := by
        by_contra hne
        exact hts hne
      rw [this] at h
      exact Option.noConfusion h

theorem timestamp_reformat_witness :
    normalizeTimestamp ("notatimestamp".toList) = ("notatimestamp".toList) ∧
    normalizeTimestamp ("2024-01-01T00:00:00.000000000Z".toList) =
      formatTimestamp ⟨2024, 1, 1, 0, 0, 0, 0⟩ :=
  ⟨timestamp_reformat_or_verbatim.1 ("notatimestamp".toList) (by rfl),
   timestamp_reformat_or_verbatim.2.1 ("2024-01-01T00:00:00.000000000Z".toList)
     ⟨2024, 1, 1, 0, 0, 0, 0⟩ (by rfl)⟩

/-- The spec's severity buckets. -/
inductive Severity where
  | error
  | warning
  | panicSev
  | debug
  | normal
deriving DecidableEq

/-- The fixed severity-to-color table
(Error→red, Warning→yellow, Panic→yellow, Debug→cyan, Normal→white). -/
def severityColor : Severity → Color
  | Severity.error => Color.red
  | Severity.warning => Color.yellow
  | Severity.panicSev => Color.yellow
  | Severity.debug => Color.cyan
  | Severity.normal => Color.white

/-- First group whose patterns produce a match wins; no match at all is
Normal. -/
def firstMatchSeverity (line : List Char) :
    List (Severity × List (List RItem)) → Severity
  | [] => Severity.normal
  | g :: rest =>
      if g.2.any (matchesAnywhere line) then g.1 else firstMatchSeverity line rest

/-- Modelled from the spec: evaluate the rule groups in the fixed order
Error → Warning → Panic → Debug and return the severity of the first
group containing any matching pattern, defaulting to Normal. -/
def classifySpec (line : List Char) : Severity :=
  firstMatchSeverity line
    [ (Severity.error, errorRegexps), (Severity.warning, warningRegexps),
      (Severity.panicSev, panicRegexps), (Severity.debug, debugRegexps) ]

/-- C4: the plain-text classifier of `PrintLogLine` evaluates the rule
groups in the fixed order Error → Warning → Panic → Debug with the first
matching group winning and Normal as default: its color agrees with the
ordered first-match classifier on every line, a line matching both an
Error-group and a Warning-group pattern is classified Error (red), and a
line matching no group at all is Normal (white). -/
theorem pattern_classifier_first_match_order :
    (∀ line, plainColor line = severityColor (classifySpec line)) ∧
    (∀ line, IsError line = true → IsWarning line = true →
      classifySpec line = Severity.error ∧ plainColor line = Color.red) ∧
    (∀ line, IsError line = false → IsWarning line = false →
      IsPanic line = false → IsDebug line = false →
      classifySpec line = Severity.normal ∧ plainColor line = Color.white) := by
  refine ⟨fun line => ?_, fun line hE hW => ?_, fun line h1 h2 h3 h4 => ?_⟩
  · simp only [plainColor, classifySpec, firstMatchSeverity, IsError, IsWarning,
      IsPanic, IsDebug]
    by_cases hE : errorRegexps.any (matchesAnywhere line) = true
    · simp [hE, severityColor]
    · by_cases hW : warningRegexps.any (matchesAnywhere line) = true
      · simp [hE, hW, severityColor]
      · by_cases hP : panicRegexps.any (matchesAnywhere line) = true
        · simp [hE, hW, hP, severityColor]
        · by_cases hD : debugRegexps.any (matchesAnywhere line) = true
          · simp [hE, hW, hP, hD, severityColor]
          · simp [hE, hW, hP, hD, severityColor]
  · unfold IsError at hE
    unfold IsWarning at hW
    constructor
    · simp [classifySpec, firstMatchSeverity, hE]
    · simp [plainColor, IsError, hE]
  · unfold IsError at h1
    unfold IsWarning at h2
    unfold IsPanic at h3
    unfold IsDebug at h4
    constructor
    · simp [classifySpec, firstMatchSeverity, h1, h2, h3, h4]
    · simp [plainColor, IsError, IsWarning, IsPanic, IsDebug, h1, h2, h3, h4]

theorem pattern_classifier_first_match_witness :
    IsError ("[ERROR] [WARN] boom".toList) = true ∧
    IsWarning ("[ERROR] [WARN] boom".toList) = true ∧
    classifySpec ("[ERROR] [WARN] boom".toList) = Severity.error ∧
    plainColor ("[ERROR] [WARN] boom".toList) = Color.red :=
  ⟨by decide, by decide,
   (pattern_classifier_first_match_order.2.1 ("[ERROR] [WARN] boom".toList)
      (by decide) (by decide)).1,
   (pattern_classifier_first_match_order.2.1 ("[ERROR] [WARN] boom".toList)
      (by decide) (by decide)).2⟩

/-- C8: in keyword-only mode with a non-empty keyword and its compiled
pattern (for an invalid keyword `MustCompile` panics instead of yielding
one, before any line can be rendered), a line whose post-timestamp
remainder does not contain the keyword (the `strings.Contains` test of
the source) produces no output, and a line whose remainder does contain
it produces exactly one rendered line, whose body is the compiled
pattern's match spans highlighted over the base-colored remainder. -/
theorem keyword_only_filtering (podName line keyword : List Char)
    (re : CompiledRegex) (tsFlag showPod : Bool) (hkw : keyword ≠ []) :
    (containsSub (remainderOf line tsFlag) keyword = false →
      PrintLogLineRe podName line keyword re true showPod tsFlag = none) ∧
    (containsSub (remainderOf line tsFlag) keyword = true →
      PrintLogLineRe podName line keyword re true showPod tsFlag =
        some (podPrefix podName showPod ++
          sprint Color.darkGray (normalizeTimestamp (timestampOf line tsFlag)) ++ ' ' ::
          (HighlightKeywordRe re
              (sprint (colorOf (remainderOf line tsFlag)) (remainderOf line tsFlag))
              (sprint (colorOf (remainderOf line tsFlag))) ++ '\n' :: []))) := by
  constructor
  · intro hc
    simp [PrintLogLineRe, hkw, hc]
  · intro hc
    simp [PrintLogLineRe, hkw, hc]

theorem keyword_only_filtering_witness :
    PrintLogLineRe ("p".toList) ("hello world".toList) ("zzz".toList)
      (litCompiled ("zzz".toList)) true false false = none ∧
    PrintLogLineRe ("p".toList) ("hello world".toList) ("wor".toList)
      (litCompiled ("wor".toList)) true false false =
      some (podPrefix ("p".toList) false ++
        sprint Color.darkGray (normalizeTimestamp (timestampOf ("hello world".toList) false)) ++ ' ' ::
        (HighlightKeywordRe (litCompiled ("wor".toList))
            (sprint (colorOf (remainderOf ("hello world".toList) false))
              (remainderOf ("hello world".toList) false))
            (sprint (colorOf (remainderOf ("hello world".toList) false))) ++ '\n' :: [])) :=
  ⟨(keyword_only_filtering ("p".toList) ("hello world".toList) ("zzz".toList)
      (litCompiled ("zzz".toList)) false false (by decide)).1 (by rfl),
   (keyword_only_filtering ("p".toList) ("hello world".toList) ("wor".toList)
      (litCompiled ("wor".toList)) false false (by decide)).2 (by rfl)⟩

theorem hlSpans_join (line : List Char) :
    ∀ (ms : List (Nat × Nat)) (start : Nat),
      chainB start line.length ms →
      ((hlSpans line ms start).map Prod.snd).flatten = line.drop start := by
  intro ms
  induction ms with
  | nil =>
      intro start _
      simp [hlSpans]
  | cons m rest ih =>
      intro start hc
      obtain ⟨h1, h2, h3, hrest⟩ := hc
      have hstep := ih m.2 hrest
      simp only [hlSpans, List.map_cons, List.flatten_cons, hstep]
      have ea : (line.drop start).drop (m.1 - start) = line.drop m.1 := by
        rw [List.drop_drop]
        congr 1
        omega
      have eb : (line.drop m.1).drop (m.2 - m.1) = line.drop m.2 := by
        rw [List.drop_drop]
        congr 1
        omega
      calc (line.drop start).take (m.1 - start) ++
            ((line.drop m.1).take (m.2 - m.1) ++ line.drop m.2)
          = (line.drop start).take (m.1 - start) ++
            ((line.drop m.1).take (m.2 - m.1) ++ (line.drop m.1).drop (m.2 - m.1)) := by
            rw [eb]
        _ = (line.drop start).take (m.1 - start) ++ line.drop m.1 := by
            rw [List.take_append_drop]
        _ = (line.drop start).take (m.1 - start) ++ (line.drop start).drop (m.1 - start) := by
            rw [ea]
        _ = line.drop start := List.take_append_drop _ _

/-- C5: for every input line and every non-empty keyword pattern,
concatenating in order the plain text of the base-colored gap spans and
highlight-colored match spans produced by the keyword highlighter
(stripping the color wrapping of each span) reproduces the highlighter's
input line exactly — proved for every compiled pattern through the
match-interval contract of `FindAllStringIndex`, and instantiated to the
literal matcher of metacharacter-free keywords; in both forms the
highlighter's output is precisely those spans rendered in order. -/
theorem highlight_roundtrip :
    (∀ (line : List Char) (re : CompiledRegex) (colorFunc : List Char → List Char),
      ((hlSpans line (re.findAll line) 0).map Prod.snd).flatten = line ∧
      HighlightKeywordRe re line colorFunc =
        renderSpans (hlSpans line (re.findAll line) 0) colorFunc) ∧
    (∀ (line kw : List Char) (colorFunc : List Char → List Char), kw ≠ [] →
      ((highlightSpans line kw).map Prod.snd).flatten = line ∧
      HighlightKeyword line kw colorFunc =
        renderSpans (highlightSpans line kw) colorFunc) := by
  constructor
  · intro line re colorFunc
    refine ⟨?_, rfl⟩
    have h := hlSpans_join line (re.findAll line) 0 (re.chain line)
    simpa using h
  · intro line kw colorFunc _
    refine ⟨?_, rfl⟩
    have h := hlSpans_join line (findAllIdx line kw) 0 ((litCompiled kw).chain line)
    simpa [highlightSpans] using h

theorem highlight_roundtrip_witness :
    ((hlSpans ("abcabc".toList)
        ((litCompiled ("bc".toList)).findAll ("abcabc".toList)) 0).map Prod.snd).flatten =
      "abcabc".toList ∧
    ("bc".toList ≠ []) ∧
    ((highlightSpans ("abcabc".toList) ("bc".toList)).map Prod.snd).flatten =
      "abcabc".toList :=
  ⟨(highlight_roundtrip.1 ("abcabc".toList) (litCompiled ("bc".toList)) (sprint Color.red)).1,
   by decide,
   (highlight_roundtrip.2 ("abcabc".toList) ("bc".toList) (sprint Color.red) (by decide)).1⟩

theorem fanReach_invariant (n : Nat) (s : FanState) (h : FanReach n s) :
    s.pending + s.running + s.doneOk + s.doneErr = n ∧
    s.running ≤ maxConcurrency := by
  unfold FanReach at h
  induction h with
  | refl => exact ⟨by simp [initFan], by simp [initFan]⟩
  | tail _ hstep ih =>
      obtain ⟨ihsum, ihrun⟩ := ih
      cases hstep with
      | start h1 h2 => exact ⟨by dsimp only; omega, by dsimp only; omega⟩
      | finishOk h1 => exact ⟨by dsimp only; omega, by dsimp only; omega⟩
      | finishErr h1 => exact ⟨by dsimp only; omega, by dsimp only; omega⟩

theorem drain_reaches_aux (n : Nat) :
    ∀ s : FanState, 2 * s.pending + s.running = n →
      Relation.ReflTransGen FanStep s (drainOk s) := by
  induction n using Nat.strong_induction_on with
  | _ n ih =>
      intro s hn
      by_cases hr : s.running = 0
      · by_cases hp : s.pending = 0
        · have hd : drainOk s = (⟨s.pending, s.running, s.doneOk, s.doneErr⟩ : FanState) := by
            unfold drainOk
            rw [hp, hr]
            simp
          rw [hd.trans rfl]
        · have hlt : s.running < maxConcurrency := by
            rw [hr]
            decide
          have hstep := FanStep.start s hp hlt
          have h' : 2 * (s.pending - 1) + (s.running + 1) < n := by omega
          have htail := ih _ h' ⟨s.pending - 1, s.running + 1, s.doneOk, s.doneErr⟩ rfl
          have hd : drainOk ⟨s.pending - 1, s.running + 1, s.doneOk, s.doneErr⟩ =
              drainOk s := by
            simp only [drainOk, FanState.mk.injEq, true_and, and_true]
            omega
          rw [hd] at htail
          exact Relation.ReflTransGen.head hstep htail
      · have hstep := FanStep.finishOk s hr
        have h' : 2 * s.pending + (s.running - 1) < n := by omega
        have htail := ih _ h' ⟨s.pending, s.running - 1, s.doneOk + 1, s.doneErr⟩ rfl
        have hd : drainOk ⟨s.pending, s.running - 1, s.doneOk + 1, s.doneErr⟩ =
            drainOk s := by
          simp only [drainOk, FanState.mk.injEq, true_and, and_true]
          omega
        rw [hd] at htail
        exact Relation.ReflTransGen.head hstep htail

theorem drain_reaches (s : FanState) :
    Relation.ReflTransGen FanStep s (drainOk s) :=
  drain_reaches_aux (2 * s.pending + s.running) s rfl

/-- C3: in all-pods mode with `n` matched pods, every reachable state of
the fan-out runs at most `maxConcurrency = 10` streaming tasks at once;
the orchestrator is returned (`wg.Wait` released) only when all `n` tasks
have finished; and whenever a task is running, its stream can fail — this
is a legal step that ends only that one task, after which all remaining
tasks can still run to completion, finishing all `n` with exactly one
more error recorded. -/
theorem fanout_semaphore_bound_and_isolation (n : Nat) (s : FanState)
    (h : FanReach n s) :
    s.running ≤ maxConcurrency ∧
    (fanReturned s → s.doneOk + s.doneErr = n) ∧
    (s.running ≠ 0 →
      FanStep s (errStep s) ∧
      FanReach n (errStep s) ∧
      Relation.ReflTransGen FanStep (errStep s) (drainOk (errStep s)) ∧
      fanReturned (drainOk (errStep s)) ∧
      (drainOk (errStep s)).doneErr = s.doneErr + 1 ∧
      (drainOk (errStep s)).doneOk + (drainOk (errStep s)).doneErr = n) := by
  obtain ⟨hsum, hrun⟩ := fanReach_invariant n s h
  refine ⟨hrun, ?_, ?_⟩
  · rintro ⟨hp, hr⟩
    omega
  · intro hr
    have hstep : FanStep s (errStep s) := FanStep.finishErr s hr
    have hreach : FanReach n (errStep s) := Relation.ReflTransGen.tail h hstep
    refine ⟨hstep, hreach, drain_reaches (errStep s), ⟨rfl, rfl⟩, rfl, ?_⟩
    simp only [drainOk, errStep]
    omega

theorem fanout_semaphore_witness :
    (FanState.mk 11 1 0 0).running ≤ maxConcurrency ∧
    FanStep ⟨11, 1, 0, 0⟩ (errStep ⟨11, 1, 0, 0⟩) ∧
    Relation.ReflTransGen FanStep (errStep ⟨11, 1, 0, 0⟩)
      (drainOk (errStep ⟨11, 1, 0, 0⟩)) ∧
    (drainOk (errStep ⟨11, 1, 0, 0⟩)).doneOk +
      (drainOk (errStep ⟨11, 1, 0, 0⟩)).doneErr = 12 := by
  have h : FanReach 12 ⟨11, 1, 0, 0⟩ :=
    Relation.ReflTransGen.single (FanStep.start (initFan 12) (by decide) (by decide))
  have hm := fanout_semaphore_bound_and_isolation 12 ⟨11, 1, 0, 0⟩ h
  have hiso := hm.2.2 (by decide)
  exact ⟨hm.1, hiso.1, hiso.2.2.1, hiso.2.2.2.2.2⟩
